import Mathlib

/-!
Shallow embedding of the HW1 COVID-regression notebook
(`src/HW1/.ipynb_checkpoints/Untitled-checkpoint.ipynb`): the dataset
wrapper `MyDataset`, the split utility `train_valid_split`, the control
skeleton of the `trainer` epoch loop, and the `predict` routine.

Numeric data and losses are modelled as exact rationals (`ℚ`).  The
tensor/autodiff framework is treated as an external oracle: the per-epoch
mean validation losses seen by the trainer form an arbitrary input
sequence (they are produced by the framework's numeric computation, which
the trainer's control flow only observes), and `torch.randperm` — the
generator output that drives `torch.utils.data.random_split` — is an
arbitrary seeded permutation-producing function passed as a parameter.
-/

namespace HW1

/-- Embedding of Python/torch 1-D indexing `t[idx]` along the first axis:
indices in `[0, len)` select directly, indices in `[-len, 0)` select from
the end (`t[len + idx]`), anything else raises `IndexError` (modelled as
`none`). -/
def tensorGet {β : Type} (rows : List β) (idx : Int) : Option β :=
  if 0 ≤ idx then rows[idx.toNat]?
  else if -(rows.length : Int) ≤ idx then rows[(idx + rows.length).toNat]?
  else none

/-- Embedding of `MyDataset`: `x` is the feature matrix (one row per
example), `y` the optional label vector (`None` for prediction datasets).
`__init__` copies both into float tensors. -/
structure MyDataset where
  x : List (List ℚ)
  y : Option (List ℚ)
deriving DecidableEq, Repr

/-- Embedding of `MyDataset.__getitem__`: returns `self.x[idx]` alone when
no labels were supplied, otherwise the pair `(self.x[idx], self.y[idx])`;
an `IndexError` in either lookup is a failure (`none`). -/
def MyDataset.getitem (d : MyDataset) (idx : Int) : Option (List ℚ × Option ℚ) :=
  match d.y with
  | none => (tensorGet d.x idx).map (fun r => (r, none))
  | some ys =>
    match tensorGet d.x idx, tensorGet ys idx with
    | some r, some v => some (r, some v)
    | _, _ => none

/-- Embedding of `MyDataset.__len__`: `len(self.x)`. -/
def MyDataset.len (d : MyDataset) : Nat := d.x.length

/-- Embedding of the notebook cell
`train_dataset, valid_dataset, test_dataset = MyDataset(x_valid, y_valid),
MyDataset(x_train, y_train), MyDataset(x_text)`: the right-hand tuple is
assigned in this order, so the dataset bound as `train_dataset` (the one
wrapped by `train_loader` and iterated by the trainer's gradient steps)
wraps the validation split, and the dataset bound as `valid_dataset`
(wrapped by `valid_loader`) wraps the training split. -/
def datasets (x_train x_valid x_text : List (List ℚ)) (y_train y_valid : List ℚ) :
    MyDataset × MyDataset × MyDataset :=
  (⟨x_valid, some y_valid⟩, ⟨x_train, some y_train⟩, ⟨x_text, none⟩)

/-- Embedding of `predict(data_loader, model, device)`.  The body's loop is
`for x in tqdm(test_loader)`: it iterates the global `test_loader` captured
from the notebook scope — the `data_loader` argument is never used.  The
global loader is therefore an explicit parameter here.  Per-batch outputs
are concatenated by `torch.cat(preds, dim=0)`; `model.eval()`,
`torch.no_grad()` and device moves have no observable effect in the pure
embedding. -/
def predict (test_loader : List (List (List ℚ))) (data_loader : List (List (List ℚ)))
    (model : List ℚ → ℚ) : List ℚ :=
  (test_loader.map (fun batch => batch.map model)).flatten

/-- The bookkeeping state of `trainer`'s epoch loop: `bestLoss` is
`best_loss` (initialised to `2**64` in the source), `early_stop_count` the
consecutive-stall counter, and `checkpoint` the epoch index whose
parameters the checkpoint file currently holds (`none` while no checkpoint
has been written yet). -/
structure TrainerState where
  bestLoss : ℚ
  early_stop_count : Nat
  checkpoint : Option Nat
deriving DecidableEq, Repr

/-- Initial trainer state, from
`n_epochs, best_loss, step, early_stop_count = config['n_epochs'], 2**64, 0, 0`:
`best_loss = 2^64`, `early_stop_count = 0`, no checkpoint written; the
epoch counter starts at `0`. -/
def initState : TrainerState := ⟨2 ^ 64, 0, none⟩

/-- Embedding of the tail of one epoch of `trainer`: given the epoch's mean
validation loss, either a strict improvement (`mean_valid_loss < best_loss`:
update `best_loss`, save the model's parameters to the checkpoint path —
recorded as this epoch's index — and reset `early_stop_count` to 0) or a
stall (increment `early_stop_count`; the checkpoint file is untouched). -/
def trainerStep (s : TrainerState) (epoch : Nat) (mean_valid_loss : ℚ) : TrainerState :=
  if mean_valid_loss < s.bestLoss then
    { bestLoss := mean_valid_loss, early_stop_count := 0, checkpoint := some epoch }
  else
    { s with early_stop_count := s.early_stop_count + 1 }

/-- The epoch loop of `trainer` with its early-stopping check: one entry of
the loss list per budgeted epoch (`n_epochs` is the list length); after
each epoch, if `early_stop_count >= config['early_stop']` the function
returns.  Result: the final state and the number of epochs executed. -/
def trainerLoop (early_stop : Nat) : TrainerState → Nat → List ℚ → TrainerState × Nat
  | s, _, [] => (s, 0)
  | s, epoch, l :: ls =>
    if early_stop ≤ (trainerStep s epoch l).early_stop_count then
      (trainerStep s epoch l, 1)
    else
      ((trainerLoop early_stop (trainerStep s epoch l) (epoch + 1) ls).1,
       (trainerLoop early_stop (trainerStep s epoch l) (epoch + 1) ls).2 + 1)

/-- The `trainer` loop run from the initial state. -/
def trainerRun (early_stop : Nat) (mean_valid_losses : List ℚ) : TrainerState × Nat :=
  trainerLoop early_stop initState 0 mean_valid_losses

/-- The epoch-step semantics without the early-stopping cut: the state
after processing a sequence of per-epoch mean validation losses.  Used to
state per-epoch invariants; `trainerLoop` executes exactly these steps on
the prefix of epochs it runs. -/
def runSteps : TrainerState → Nat → List ℚ → TrainerState
  | s, _, [] => s
  | s, epoch, l :: ls => runSteps (trainerStep s epoch l) (epoch + 1) ls

/-- Embedding of `sum(loss_record)/len(loss_record)` in `trainer`: Python
raises `ZeroDivisionError` on an empty record (`none`). -/
def meanLoss (loss_record : List ℚ) : Option ℚ :=
  if loss_record.length = 0 then none
  else some (loss_record.sum / loss_record.length)

/-- The running minimum that `best_loss` tracks: the minimum of the
initial `2^64` and all mean validation losses seen so far. -/
def bestOf (losses : List ℚ) : ℚ := losses.foldl min (2 ^ 64)

/-- Embedding of the batching performed by
`DataLoader(dataset, batch_size, ...)`: consecutive batches of
`batch_size` items from the (possibly shuffled) item sequence, the last
batch shorter when the length is not a multiple (`drop_last` defaults to
False); a loader with `batch_size = 0` is rejected by torch, modelled as
producing no batches. -/
def chunks {β : Type} (batch_size : Nat) : List β → List (List β)
  | [] => []
  | a :: l =>
    if h : batch_size = 0 then []
    else (a :: l).take batch_size :: chunks batch_size ((a :: l).drop batch_size)
termination_by l => l.length
decreasing_by
  simp only [List.length_drop, List.length_cons]
  omega

/-- Embedding of
`torch.utils.data.random_split(data_set, [n1, n2], generator=...)`
specialised to two lengths: the generator's `randperm` output over
`n = len(data_set)` — supplied as a seeded permutation oracle — is cut
into the first `n1` indices and the following `n2` indices. -/
def random_split (randperm : Nat → Nat → List Nat) (n n1 n2 seed : Nat) :
    List Nat × List Nat :=
  ((randperm seed n).take n1, ((randperm seed n).drop n1).take n2)

/-- The index computation of
`train_valid_split(data_set, valid_ratio, seed)`:
`valid_set_size = int(valid_ratio * len(data_set))` — truncation toward
zero, which for a ratio in `[0, 1)` is the floor, taken here in exact
rational arithmetic — `train_set_size = len(data_set) - valid_set_size`,
then `random_split` on `[train_set_size, valid_set_size]` with the
seeded generator. -/
def train_valid_split_indices (randperm : Nat → Nat → List Nat) (n : Nat)
    (valid_ratio : ℚ) (seed : Nat) : List Nat × List Nat :=
  random_split randperm n (n - (⌊valid_ratio * n⌋).toNat) (⌊valid_ratio * n⌋).toNat seed

/-- Embedding of `train_valid_split`: the two `random_split` subsets are
materialised (`np.array(train_set)`, `np.array(valid_set)`) as the rows
of the dataset at the chosen indices. -/
def train_valid_split (randperm : Nat → Nat → List Nat) (data_set : List (List ℚ))
    (valid_ratio : ℚ) (seed : Nat) : List (List ℚ) × List (List ℚ) :=
  ((train_valid_split_indices randperm data_set.length valid_ratio seed).1.filterMap
      (fun j => data_set[j]?),
   (train_valid_split_indices randperm data_set.length valid_ratio seed).2.filterMap
      (fun j => data_set[j]?))

/-- C2: in the orchestration, the dataset bound as `train_dataset` wraps
the validation-split features and labels `(x_valid, y_valid)` and the
dataset bound as `valid_dataset` wraps the training-split features and
labels `(x_train, y_train)`; gradient descent therefore runs over the
validation split while validation loss is measured over the training
split. -/
theorem datasets_swapped (x_train x_valid x_text : List (List ℚ))
    (y_train y_valid : List ℚ) :
    (datasets x_train x_valid x_text y_train y_valid).1.x = x_valid ∧
    (datasets x_train x_valid x_text y_train y_valid).1.y = some y_valid ∧
    (datasets x_train x_valid x_text y_train y_valid).2.1.x = x_train ∧
    (datasets x_train x_valid x_text y_train y_valid).2.1.y = some y_train :=
  ⟨rfl, rfl, rfl, rfl⟩

/-- C1 (code bug, evaluated at a failing input): the claim says `predict`
iterates the loader passed to it and returns one prediction per row of
that loader in its order; the code instead iterates the global
`test_loader`.  Here the given loader holds the single row `[3]`, the
global loader the single row `[1]`, the model sums a row: the result is
the prediction for the global loader's row, not for the given loader's
row. -/
theorem predict_uses_global_test_loader :
    predict [[[(1 : ℚ)]]] [[[(3 : ℚ)]]] (fun r => r.headD 0) = [1] ∧
    ([[[(3 : ℚ)]]] : List (List (List ℚ))).flatten.map (fun r => r.headD 0) = [3] ∧
    predict [[[(1 : ℚ)]]] [[[(3 : ℚ)]]] (fun r => r.headD 0)
      ≠ ([[[(3 : ℚ)]]] : List (List (List ℚ))).flatten.map (fun r => r.headD 0) := by
  refine ⟨rfl, rfl, ?_⟩
  simp [predict]

/-- C3 counterexample: `best_loss` starts at `2^64`, not positive
infinity: the finite first-epoch mean validation loss `2^64` fails the
strict-improvement test and no checkpoint is written after the first
epoch. -/
theorem first_epoch_no_checkpoint_at_large_loss :
    (runSteps initState 0 [(2 : ℚ) ^ 64]).checkpoint = none := by
  decide

/-- C3 (amended): at trainer start `best_loss = 2^64`,
`early_stop_count = 0`, no checkpoint exists and the epoch counter is 0;
consequently for every first-epoch mean validation loss strictly below
`2^64` the strict-improvement test succeeds and a checkpoint is written
after the first epoch. -/
theorem init_state_first_epoch_checkpoint :
    initState.bestLoss = 2 ^ 64 ∧ initState.early_stop_count = 0 ∧
    initState.checkpoint = none ∧
    ∀ l : ℚ, l < 2 ^ 64 → (runSteps initState 0 [l]).checkpoint = some 0 := by
  refine ⟨rfl, rfl, rfl, fun l hl => ?_⟩
  show (trainerStep initState 0 l).checkpoint = some 0
  unfold trainerStep
  rw [if_pos (show l < initState.bestLoss from hl)]

/-- Witness for `init_state_first_epoch_checkpoint` at first-epoch loss 5. -/
theorem init_state_first_epoch_checkpoint_witness :
    (runSteps initState 0 [(5 : ℚ)]).checkpoint = some 0 :=
  init_state_first_epoch_checkpoint.2.2.2 5 (by norm_num)

/-- C10: with `early_stop = 0` the post-epoch check
`early_stop_count >= 0` succeeds whatever the first epoch did (improvement
resets the counter to 0, a stall raises it to 1, and both are `≥ 0`), so
the trainer terminates after exactly one epoch on every non-empty epoch
budget. -/
theorem early_stop_zero_one_epoch (losses : List ℚ) (h : losses ≠ []) :
    (trainerRun 0 losses).2 = 1 := by
  cases losses with
  | nil => exact absurd rfl h
  | cons l ls => simp [trainerRun, trainerLoop, Nat.zero_le]

/-- Witness for `early_stop_zero_one_epoch` on a one-epoch budget. -/
theorem early_stop_zero_one_epoch_witness :
    (trainerRun 0 [(5 : ℚ)]).2 = 1 :=
  early_stop_zero_one_epoch [5] (by decide)

/-- Helper for the early-stopping analysis: from a state whose stall
counter needs `k ≥ 1` more consecutive non-improving epochs to reach the
patience threshold, `k` such epochs make the loop return after exactly
`k` further epochs. -/
theorem trainerLoop_stall_halts (early_stop : Nat) :
    ∀ (k : Nat) (s : TrainerState) (epoch : Nat) (losses : List ℚ),
      1 ≤ k → s.early_stop_count + k = early_stop → k ≤ losses.length →
      (∀ l ∈ losses.take k, s.bestLoss ≤ l) →
      (trainerLoop early_stop s epoch losses).2 = k := by
  intro k
  induction k with
  | zero => intro s epoch losses h1; omega
  | succ k ih =>
    intro s epoch losses _ hcnt hlen hni
    cases losses with
    | nil => simp at hlen
    | cons l ls =>
      have hl : s.bestLoss ≤ l := hni l (by simp)
      have hstep : trainerStep s epoch l
          = { s with early_stop_count := s.early_stop_count + 1 } := by
        unfold trainerStep
        rw [if_neg (not_lt.mpr hl)]
      rcases Nat.eq_zero_or_pos k with hk0 | hkpos
      · subst hk0
        have hhalt : early_stop ≤ (trainerStep s epoch l).early_stop_count := by
          rw [hstep]; simp; omega
        simp only [trainerLoop]
        rw [if_pos hhalt]
      · have hcont : ¬ early_stop ≤ (trainerStep s epoch l).early_stop_count := by
          rw [hstep]; simp; omega
        have hrec := ih (trainerStep s epoch l) (epoch + 1) ls hkpos
          (by rw [hstep]; simp; omega)
          (by simp only [List.length_cons] at hlen; omega)
          (by
            intro l2 hl2
            rw [hstep]
            show s.bestLoss ≤ l2
            exact hni l2 (by simp only [List.take_succ_cons]; exact List.mem_cons_of_mem l hl2))
        simp only [trainerLoop]
        rw [if_neg hcont]
        show (trainerLoop early_stop (trainerStep s epoch l) (epoch + 1) ls).2 + 1 = k + 1
        rw [hrec]

/-- C6: for every patience `P ≥ 1` and every loop state whose stall
counter is 0 (the start of the run, or the state right after an improving
epoch), `P` consecutive epochs each failing to strictly improve the best
validation loss make the trainer halt exactly at the end of the `P`-th
such epoch, even when the epoch budget (the remaining loss list) is not
exhausted. -/
theorem trainer_early_stopping (P : Nat) (hP : 1 ≤ P) (s : TrainerState)
    (hs : s.early_stop_count = 0) (epoch : Nat) (losses : List ℚ)
    (hlen : P ≤ losses.length) (hni : ∀ l ∈ losses.take P, s.bestLoss ≤ l) :
    (trainerLoop P s epoch losses).2 = P :=
  trainerLoop_stall_halts P P s epoch losses hP (by omega) hlen hni

/-- Witness for `trainer_early_stopping`: patience 2 with a three-epoch
budget whose mean validation losses never improve on the initial `2^64`;
the trainer halts after exactly 2 of the 3 budgeted epochs. -/
theorem trainer_early_stopping_witness :
    (trainerLoop 2 initState 0 [(2 : ℚ) ^ 64, 2 ^ 64, 2 ^ 64]).2 = 2 :=
  trainer_early_stopping 2 (by norm_num) initState rfl 0 _ (by norm_num)
    (by
      intro l hl
      rw [show ([(2 : ℚ) ^ 64, 2 ^ 64, 2 ^ 64].take 2) = [(2 : ℚ) ^ 64, 2 ^ 64] from rfl] at hl
      rcases List.mem_cons.mp hl with h | h
      · subst h; exact le_rfl
      · rcases List.mem_cons.mp h with h2 | h2
        · subst h2; exact le_rfl
        · simp at h2)

/-- Helper: a positive batch size over a non-empty item sequence yields at
least one batch. -/
theorem chunks_ne_nil {β : Type} (b : Nat) (hb : 0 < b) (xs : List β) (hxs : xs ≠ []) :
    chunks b xs ≠ [] := by
  cases xs with
  | nil => exact absurd rfl hxs
  | cons a l =>
    simp only [chunks]
    rw [dif_neg (Nat.pos_iff_ne_zero.mp hb)]
    exact List.cons_ne_nil _ _

/-- C9: the trainer computes each epoch's mean loss as
`sum(loss_record)/len(loss_record)`; when the loader yields at least one
batch (positive batch size, non-empty dataset) the loss record — one
entry per batch, here produced by a per-batch loss oracle `f` — is
non-empty and the division is defined, while on an empty loss record the
division by zero fails. -/
theorem mean_loss_defined_iff_batches {β : Type} (b : Nat) (xs : List β)
    (f : List β → ℚ) (hb : 0 < b) (hxs : xs ≠ []) :
    meanLoss ((chunks b xs).map f)
      = some (((chunks b xs).map f).sum / (((chunks b xs).map f).length : ℚ)) ∧
    meanLoss ([] : List ℚ) = none := by
  constructor
  · have h : ((chunks b xs).map f).length ≠ 0 := by
      simpa [List.length_eq_zero] using chunks_ne_nil b hb xs hxs
    unfold meanLoss
    rw [if_neg h]
  · rfl

/-- Witness for `mean_loss_defined_iff_batches`: three items in batches of
two (two batches), the per-batch loss being the batch's first item. -/
theorem mean_loss_defined_iff_batches_witness :
    meanLoss ((chunks 2 [(1 : ℚ), 2, 3]).map (fun bt => bt.headD 0))
      = some (((chunks 2 [(1 : ℚ), 2, 3]).map (fun bt => bt.headD 0)).sum
          / (((chunks 2 [(1 : ℚ), 2, 3]).map (fun bt => bt.headD 0)).length : ℚ)) ∧
    meanLoss ([] : List ℚ) = none :=
  mean_loss_defined_iff_batches 2 [(1 : ℚ), 2, 3] (fun bt => bt.headD 0)
    (by norm_num) (by simp)

/-- Helper: the running minimum over an appended element. -/
theorem bestOf_append (ls : List ℚ) (l : ℚ) :
    bestOf (ls ++ [l]) = min (bestOf ls) l := by
  simp [bestOf, List.foldl_append]

/-- Helper: a left fold of `min` never exceeds its initial value. -/
theorem foldl_min_le_init (init : ℚ) (ls : List ℚ) :
    ls.foldl min init ≤ init := by
  induction ls generalizing init with
  | nil => exact le_rfl
  | cons a l ih =>
    calc (a :: l).foldl min init = l.foldl min (min init a) := rfl
    _ ≤ min init a := ih _
    _ ≤ init := min_le_left _ _

/-- Helper: a left fold of `min` never exceeds any list element. -/
theorem foldl_min_le_mem {x : ℚ} :
    ∀ (ls : List ℚ) (init : ℚ), x ∈ ls → ls.foldl min init ≤ x := by
  intro ls
  induction ls with
  | nil => intro init hx; simp at hx
  | cons a l ih =>
    intro init hx
    rcases List.mem_cons.mp hx with h | h
    · subst h
      calc (x :: l).foldl min init = l.foldl min (min init x) := rfl
      _ ≤ min init x := foldl_min_le_init _ _
      _ ≤ x := min_le_right _ _
    · exact ih (min init a) h

/-- Helper: a left fold of `min` is the initial value or a list element. -/
theorem foldl_min_eq_init_or_mem (init : ℚ) (ls : List ℚ) :
    ls.foldl min init = init ∨ ls.foldl min init ∈ ls := by
  induction ls generalizing init with
  | nil => exact Or.inl rfl
  | cons a l ih =>
    have hfold : (a :: l).foldl min init = l.foldl min (min init a) := rfl
    rcases ih (min init a) with h | h
    · rcases min_choice init a with h2 | h2
      · exact Or.inl (by rw [hfold, h, h2])
      · exact Or.inr (by rw [hfold, h, h2]; exact List.mem_cons_self a l)
    · exact Or.inr (by rw [hfold]; exact List.mem_cons_of_mem a h)

/-- Helper: `runSteps` splits over list concatenation, the epoch counter
advancing by the length of the first part. -/
theorem runSteps_append (s : TrainerState) (e : Nat) (ls ls2 : List ℚ) :
    runSteps s e (ls ++ ls2) = runSteps (runSteps s e ls) (e + ls.length) ls2 := by
  induction ls generalizing s e with
  | nil => simp [runSteps]
  | cons a l ih =>
    simp only [List.cons_append, runSteps, List.length_cons, List.append_eq]
    rw [ih]
    congr 1
    omega

/-- C7: in each epoch a checkpoint is written exactly on strict
improvement (`best_loss` then becomes the epoch's mean validation loss and
the stall counter resets to 0), otherwise the checkpoint file is untouched
and the stall counter increments by 1; consequently after any sequence of
epochs `best_loss` is the minimum of the initial `2^64` and all mean
validation losses so far, and the checkpoint holds the parameters of the
(first) epoch attaining that minimum — the epoch with the minimum
validation loss observed so far — as soon as any epoch improved on the
initial value. -/
theorem trainer_checkpoint_invariant :
    (∀ (s : TrainerState) (epoch : Nat) (l : ℚ),
        (l < s.bestLoss → trainerStep s epoch l = ⟨l, 0, some epoch⟩) ∧
        (s.bestLoss ≤ l →
          trainerStep s epoch l
            = ⟨s.bestLoss, s.early_stop_count + 1, s.checkpoint⟩)) ∧
    (∀ losses : List ℚ,
        (runSteps initState 0 losses).bestLoss = bestOf losses ∧
        (runSteps initState 0 losses).checkpoint =
          (if bestOf losses < 2 ^ 64
            then some (losses.indexOf (bestOf losses)) else none)) := by
  constructor
  · intro s epoch l
    constructor
    · intro h
      unfold trainerStep
      rw [if_pos h]
    · intro h
      unfold trainerStep
      rw [if_neg (not_lt.mpr h)]
  · intro losses
    induction losses using List.reverseRecOn with
    | nil =>
      constructor
      · simp [runSteps, initState, bestOf]
      · simp [runSteps, initState, bestOf]
    | append_singleton ls l ih =>
      obtain ⟨ihb, ihc⟩ := ih
      have hbinit : bestOf ls ≤ 2 ^ 64 := foldl_min_le_init _ _
      have hrun : runSteps initState 0 (ls ++ [l])
          = trainerStep (runSteps initState 0 ls) ls.length l := by
        rw [runSteps_append]
        simp [runSteps]
      rw [hrun, bestOf_append]
      by_cases hlt : l < bestOf ls
      · have hstep : trainerStep (runSteps initState 0 ls) ls.length l
            = ⟨l, 0, some ls.length⟩ := by
          unfold trainerStep
          rw [if_pos (show l < (runSteps initState 0 ls).bestLoss by rw [ihb]; exact hlt)]
        have hmin : min (bestOf ls) l = l := min_eq_right (le_of_lt hlt)
        rw [hstep, hmin]
        constructor
        · rfl
        · have hl64 : l < 2 ^ 64 := lt_of_lt_of_le hlt hbinit
          rw [if_pos hl64]
          have hnotmem : l ∉ ls := fun hmem =>
            absurd (foldl_min_le_mem ls (2 ^ 64) hmem) (not_le.mpr hlt)
          rw [List.indexOf_append_of_not_mem hnotmem]
          simp
      · have hle : bestOf ls ≤ l := not_lt.mp hlt
        have hstep : trainerStep (runSteps initState 0 ls) ls.length l
            = ⟨(runSteps initState 0 ls).bestLoss,
               (runSteps initState 0 ls).early_stop_count + 1,
               (runSteps initState 0 ls).checkpoint⟩ := by
          unfold trainerStep
          rw [if_neg (show ¬ l < (runSteps initState 0 ls).bestLoss by rw [ihb]; exact hlt)]
        have hmin : min (bestOf ls) l = bestOf ls := min_eq_left hle
        rw [hstep, hmin]
        constructor
        · exact ihb
        · show (runSteps initState 0 ls).checkpoint = _
          rw [ihc]
          by_cases hb : bestOf ls < 2 ^ 64
          · rw [if_pos hb, if_pos hb]
            have hmem : bestOf ls ∈ ls := by
              rcases foldl_min_eq_init_or_mem (2 ^ 64) ls with h | h
              · exfalso
                rw [show bestOf ls = ls.foldl min (2 ^ 64) from rfl, h] at hb
                exact lt_irrefl _ hb
              · exact h
            rw [List.indexOf_append_of_mem hmem]
          · rw [if_neg hb, if_neg hb]

/-- Witness for `trainer_checkpoint_invariant`: a concrete improving first
epoch, and the invariant instantiated at the loss sequence 5, 7, 3. -/
theorem trainer_checkpoint_invariant_witness :
    trainerStep initState 0 5 = ⟨5, 0, some 0⟩ ∧
    (runSteps initState 0 [(5 : ℚ), 7, 3]).checkpoint
      = (if bestOf [(5 : ℚ), 7, 3] < 2 ^ 64
          then some ([(5 : ℚ), 7, 3].indexOf (bestOf [(5 : ℚ), 7, 3])) else none) :=
  ⟨(trainer_checkpoint_invariant.1 initState 0 5).1 (by norm_num [initState]),
   (trainer_checkpoint_invariant.2 [5, 7, 3]).2⟩

/-- C4 counterexample: the wrapper over the two rows `[1]` and `[2]`
succeeds at the negative index `-1` (Python/torch wrap-around indexing),
returning the last row instead of failing as the claim requires for every
negative index. -/
theorem getitem_negative_index_succeeds :
    (MyDataset.mk [[1], [2]] none).getitem (-1) = some ([2], none) := rfl

/-- C4 (amended): for a wrapper of length `L` whose labels (when present)
have the same length as the features, `get(i)` succeeds for `0 ≤ i < L`
with the `i`-th feature row (paired with the `i`-th label when labels were
supplied); for `-L ≤ i < 0` it also succeeds, returning row `L + i`
(Python negative indexing) instead of failing; it fails exactly for `i`
outside `[-L, L)`. -/
theorem getitem_spec (d : MyDataset) (i : Int)
    (hy : ∀ ys ∈ d.y, ys.length = d.x.length) :
    (0 ≤ i → i < (d.len : Int) →
      ∃ r, d.x[i.toNat]? = some r ∧
        ((d.y = none ∧ d.getitem i = some (r, none)) ∨
          ∃ ys v, d.y = some ys ∧ ys[i.toNat]? = some v ∧
            d.getitem i = some (r, some v))) ∧
    (-(d.len : Int) ≤ i → i < 0 →
      ∃ r, d.x[(i + d.len).toNat]? = some r ∧
        ((d.y = none ∧ d.getitem i = some (r, none)) ∨
          ∃ ys v, d.y = some ys ∧ ys[(i + d.len).toNat]? = some v ∧
            d.getitem i = some (r, some v))) ∧
    ((i < -(d.len : Int) ∨ (d.len : Int) ≤ i) → d.getitem i = none) := by
  obtain ⟨xs, y⟩ := d
  dsimp only [MyDataset.len] at *
  cases y with
  | none =>
    refine ⟨?_, ?_, ?_⟩
    · intro h0 hL
      have hn : i.toNat < xs.length := by omega
      refine ⟨xs.get ⟨i.toNat, hn⟩, by simp, Or.inl ⟨rfl, ?_⟩⟩
      show (tensorGet xs i).map (fun r => (r, none)) = _
      unfold tensorGet
      rw [if_pos h0, List.getElem?_eq_getElem hn]
      simp
    · intro hge hneg
      have hn : (i + xs.length).toNat < xs.length := by omega
      refine ⟨xs.get ⟨(i + xs.length).toNat, hn⟩, by simp, Or.inl ⟨rfl, ?_⟩⟩
      show (tensorGet xs i).map (fun r => (r, none)) = _
      unfold tensorGet
      rw [if_neg (not_le.mpr hneg), if_pos hge, List.getElem?_eq_getElem hn]
      simp
    · intro h
      show (tensorGet xs i).map (fun r => (r, none)) = none
      unfold tensorGet
      rcases h with hlt | hge
      · rw [if_neg (by omega), if_neg (by omega)]
        rfl
      · rw [if_pos (by omega), List.getElem?_eq_none (by omega)]
        rfl
  | some ys =>
    have hylen : ys.length = xs.length := hy ys rfl
    refine ⟨?_, ?_, ?_⟩
    · intro h0 hL
      have hn : i.toNat < xs.length := by omega
      have hny : i.toNat < ys.length := by omega
      have htx : tensorGet xs i = some (xs.get ⟨i.toNat, hn⟩) := by
        unfold tensorGet
        rw [if_pos h0, List.getElem?_eq_getElem hn]
        simp
      have hty : tensorGet ys i = some (ys.get ⟨i.toNat, hny⟩) := by
        unfold tensorGet
        rw [if_pos h0, List.getElem?_eq_getElem hny]
        simp
      refine ⟨xs.get ⟨i.toNat, hn⟩, by simp,
        Or.inr ⟨ys, ys.get ⟨i.toNat, hny⟩, rfl, by simp, ?_⟩⟩
      show (match tensorGet xs i, tensorGet ys i with
        | some r, some v => some (r, some v)
        | _, _ => none) = _
      rw [htx, hty]
    · intro hge hneg
      have hn : (i + xs.length).toNat < xs.length := by omega
      have hny : (i + xs.length).toNat < ys.length := by omega
      have hgey : -(ys.length : Int) ≤ i := by omega
      have htx : tensorGet xs i = some (xs.get ⟨(i + xs.length).toNat, hn⟩) := by
        unfold tensorGet
        rw [if_neg (not_le.mpr hneg), if_pos hge, List.getElem?_eq_getElem hn]
        simp
      have hty : tensorGet ys i = some (ys.get ⟨(i + xs.length).toNat, hny⟩) := by
        unfold tensorGet
        rw [if_neg (not_le.mpr hneg), if_pos hgey]
        rw [show (i + (ys.length : Int)).toNat = (i + (xs.length : Int)).toNat by omega]
        rw [List.getElem?_eq_getElem hny]
        simp
      refine ⟨xs.get ⟨(i + xs.length).toNat, hn⟩, by simp,
        Or.inr ⟨ys, ys.get ⟨(i + xs.length).toNat, hny⟩, rfl, by simp, ?_⟩⟩
      show (match tensorGet xs i, tensorGet ys i with
        | some r, some v => some (r, some v)
        | _, _ => none) = _
      rw [htx, hty]
    · intro h
      have htx : tensorGet xs i = none := by
        unfold tensorGet
        rcases h with hlt | hge
        · rw [if_neg (by omega), if_neg (by omega)]
        · rw [if_pos (by omega)]
          exact List.getElem?_eq_none (by omega)
      show (match tensorGet xs i, tensorGet ys i with
        | some r, some v => some (r, some v)
        | _, _ => none) = none
      rw [htx]

/-- Witness for `getitem_spec`: a two-row dataset with labels, read at the
valid index 1 and at the out-of-range index 2. -/
theorem getitem_spec_witness :
    (∃ r, ([[1], [2]] : List (List ℚ))[(1 : Int).toNat]? = some r ∧
      (((MyDataset.mk [[1], [2]] (some [10, 20])).y = none ∧
          (MyDataset.mk [[1], [2]] (some [10, 20])).getitem 1 = some (r, none)) ∨
        ∃ ys v, (MyDataset.mk [[1], [2]] (some [10, 20])).y = some ys ∧
          ys[(1 : Int).toNat]? = some v ∧
          (MyDataset.mk [[1], [2]] (some [10, 20])).getitem 1 = some (r, some v))) ∧
    (MyDataset.mk [[1], [2]] (some [10, 20])).getitem 2 = none :=
  ⟨(getitem_spec (MyDataset.mk [[1], [2]] (some [10, 20])) 1
      (by intro ys hys; cases hys; rfl)).1 (by norm_num) (by norm_num [MyDataset.len]),
   (getitem_spec (MyDataset.mk [[1], [2]] (some [10, 20])) 2
      (by intro ys hys; cases hys; rfl)).2.2 (Or.inr (by norm_num [MyDataset.len]))⟩

/-- Helper: the truncated product `⌊r·N⌋` never exceeds `N` for `r < 1`. -/
theorem floor_ratio_le (N : Nat) (r : ℚ) (hr1 : r < 1) :
    (⌊r * N⌋).toNat ≤ N := by
  rcases Nat.eq_zero_or_pos N with h0 | hpos
  · subst h0
    simp
  · have hNpos : (0 : ℚ) < N := by exact_mod_cast hpos
    have hmul : r * (N : ℚ) < (N : ℚ) := by
      calc r * (N : ℚ) < 1 * N := mul_lt_mul_of_pos_right hr1 hNpos
      _ = N := one_mul _
    have hfl : ⌊r * (N : ℚ)⌋ < (N : Int) := Int.floor_lt.mpr (by exact_mod_cast hmul)
    omega

/-- Helper: materialising rows at a list of in-range indices keeps the
number of indices. -/
theorem length_filterMap_getElem {α : Type} (l : List α) (idx : List Nat)
    (h : ∀ j ∈ idx, j < l.length) :
    (idx.filterMap (fun j => l[j]?)).length = idx.length := by
  induction idx with
  | nil => rfl
  | cons a t ih =>
    have ha : a < l.length := h a (List.mem_cons_self a t)
    simp only [List.filterMap_cons, List.getElem?_eq_getElem ha, List.length_cons]
    rw [ih (fun j hj => h j (List.mem_cons_of_mem a hj))]

/-- C5: for every permutation oracle modelling the seeded
`torch.randperm`, dataset of length `N`, and ratio `0 ≤ r < 1`, the split
returns a validation subset of exactly `⌊r·N⌋` rows and a training subset
of the remaining `N - ⌊r·N⌋` rows, and the two index lists are disjoint
with union exactly the indices `0..N-1`. -/
theorem train_valid_split_partition (randperm : Nat → Nat → List Nat)
    (data_set : List (List ℚ)) (valid_ratio : ℚ) (seed : Nat)
    (hperm : (randperm seed data_set.length).Perm (List.range data_set.length))
    (hr0 : 0 ≤ valid_ratio) (hr1 : valid_ratio < 1) :
    (train_valid_split randperm data_set valid_ratio seed).2.length
        = (⌊valid_ratio * data_set.length⌋).toNat ∧
    (train_valid_split randperm data_set valid_ratio seed).1.length
        = data_set.length - (⌊valid_ratio * data_set.length⌋).toNat ∧
    (∀ j ∈ (train_valid_split_indices randperm data_set.length valid_ratio seed).1,
        j ∉ (train_valid_split_indices randperm data_set.length valid_ratio seed).2) ∧
    ((train_valid_split_indices randperm data_set.length valid_ratio seed).1 ++
        (train_valid_split_indices randperm data_set.length valid_ratio seed).2).Perm
      (List.range data_set.length) := by
  set perm := randperm seed data_set.length with hpermdef
  set v := (⌊valid_ratio * (data_set.length : ℚ)⌋).toNat with hvdef
  set t := data_set.length - v with htdef
  have hvN : v ≤ data_set.length := floor_ratio_le data_set.length valid_ratio hr1
  have hplen : perm.length = data_set.length := by
    rw [hperm.length_eq, List.length_range]
  have hidx1 : (train_valid_split_indices randperm data_set.length valid_ratio seed).1
      = perm.take t := rfl
  have hidx2 : (train_valid_split_indices randperm data_set.length valid_ratio seed).2
      = (perm.drop t).take v := rfl
  have hmem1 : ∀ j ∈ perm.take t, j < data_set.length := fun j hj =>
    List.mem_range.mp (hperm.mem_iff.mp (List.take_subset _ _ hj))
  have hmem2 : ∀ j ∈ (perm.drop t).take v, j < data_set.length := fun j hj =>
    List.mem_range.mp (hperm.mem_iff.mp (List.drop_subset _ _ (List.take_subset _ _ hj)))
  have hdlen : (perm.drop t).length = v := by
    rw [List.length_drop, hplen]
    omega
  have hlen1 : (perm.take t).length = t := by
    rw [List.length_take, hplen]
    omega
  have hlen2 : ((perm.drop t).take v).length = v := by
    rw [List.length_take, hdlen]
    exact min_self v
  refine ⟨?_, ?_, ?_, ?_⟩
  · show (((train_valid_split_indices randperm data_set.length valid_ratio seed).2).filterMap
        (fun j => data_set[j]?)).length = v
    rw [hidx2, length_filterMap_getElem data_set _ hmem2, hlen2]
  · show (((train_valid_split_indices randperm data_set.length valid_ratio seed).1).filterMap
        (fun j => data_set[j]?)).length = data_set.length - v
    rw [hidx1, length_filterMap_getElem data_set _ hmem1, hlen1]
  · rw [hidx1, hidx2]
    intro j hj1 hj2
    have hnd : (perm.take t ++ perm.drop t).Nodup := by
      rw [List.take_append_drop]
      exact (hperm.nodup_iff).mpr (List.nodup_range _)
    exact absurd (List.take_subset _ _ hj2) ((List.nodup_append.mp hnd).2.2 hj1)
  · rw [hidx1, hidx2]
    have htake : (perm.drop t).take v = perm.drop t := by
      rw [← hdlen]
      exact List.take_length _
    rw [htake, List.take_append_drop]
    exact hperm

/-- Witness for `train_valid_split_partition`: the identity permutation
oracle on a five-row dataset with ratio 2/5: the validation subset gets
`⌊2/5 · 5⌋ = 2` rows and the training subset the remaining 3. -/
theorem train_valid_split_partition_witness :
    (train_valid_split (fun _ n => List.range n)
        [[(10 : ℚ)], [20], [30], [40], [50]] (2/5) 0).2.length = 2 ∧
    (train_valid_split (fun _ n => List.range n)
        [[(10 : ℚ)], [20], [30], [40], [50]] (2/5) 0).1.length = 3 := by
  have h := train_valid_split_partition (fun _ n => List.range n)
    [[(10 : ℚ)], [20], [30], [40], [50]] (2/5) 0 (List.Perm.refl _)
    (by norm_num) (by norm_num)
  refine ⟨?_, ?_⟩
  · rw [h.1]
    norm_num
    decide
  · rw [h.2.1]
    norm_num
    decide

/-- C8: two invocations of `train_valid_split` with the same seed, ratio
and dataset see the same generator output, hence produce identical
partitions: for any two permutation oracles that agree at this seed and
dataset length, both the materialised subsets and the index lists
coincide. -/
theorem train_valid_split_deterministic (p1 p2 : Nat → Nat → List Nat)
    (data_set : List (List ℚ)) (valid_ratio : ℚ) (seed : Nat)
    (h : p1 seed data_set.length = p2 seed data_set.length) :
    train_valid_split p1 data_set valid_ratio seed
      = train_valid_split p2 data_set valid_ratio seed ∧
    train_valid_split_indices p1 data_set.length valid_ratio seed
      = train_valid_split_indices p2 data_set.length valid_ratio seed := by
  unfold train_valid_split train_valid_split_indices random_split
  rw [h]
  exact ⟨rfl, rfl⟩

/-- Witness for `train_valid_split_deterministic`: the generator's output
at a fixed seed is a fixed list, so repeated invocations agree. -/
theorem train_valid_split_deterministic_witness :
    train_valid_split (fun _ n => List.range n) [[(1 : ℚ)], [2]] (1/2) 7
        = train_valid_split (fun _ n => List.range n) [[(1 : ℚ)], [2]] (1/2) 7 ∧
    train_valid_split_indices (fun _ n => List.range n)
        ([[(1 : ℚ)], [2]] : List (List ℚ)).length (1/2) 7
      = train_valid_split_indices (fun _ n => List.range n)
        ([[(1 : ℚ)], [2]] : List (List ℚ)).length (1/2) 7 :=
  train_valid_split_deterministic (fun _ n => List.range n) (fun _ n => List.range n)
    [[(1 : ℚ)], [2]] (1/2) 7 rfl

end HW1
